import Mathlib

/-!
Verification of the DbToolsApp scheduling, collection and alerting pipeline.

Shallow embedding of the relevant program parts:
* `AlertRule.evaluate` and the `AlertEvaluator` state machine
  (src/backend/app/models/tenant.py, src/backend/app/services/alert_evaluator.py);
* the schedule calculator (src/backend/app/services/scheduler_service.py);
* the retention service (src/backend/app/services/retention_service.py);
* the batched retention cleanup (src/backend/workers/metrics_cleanup.py);
* the per-server collection unit of work (src/backend/workers/metric_collector.py);
* the blocking-chain builder (src/backend/app/services/analytics_service.py).

Machine values are modelled as `Rat` (metric values, thresholds) and `Int`
(timestamps in seconds, day counts); identifiers are `Nat`; Python `None` is
`Option.none`; raised exceptions are explicit error constructors.
-/

namespace DbTools

/-! ## AlertRule (src/backend/app/models/tenant.py, class AlertRule) -/

/-- Operator constant `OP_GT = 'gt'` from tenant.py line 590. -/
def OP_GT : String := "gt"

/-- Operator constant `OP_GTE = 'gte'` from tenant.py line 591. -/
def OP_GTE : String := "gte"

/-- Operator constant `OP_LT = 'lt'` from tenant.py line 592. -/
def OP_LT : String := "lt"

/-- Operator constant `OP_LTE = 'lte'` from tenant.py line 593. -/
def OP_LTE : String := "lte"

/-- Operator constant `OP_EQ = 'eq'` from tenant.py line 594. -/
def OP_EQ : String := "eq"

/-- Constant `VALID_OPERATORS` from tenant.py line 595. -/
def VALID_OPERATORS : List String := [OP_GT, OP_GTE, OP_LT, OP_LTE, OP_EQ]

/-- An alert rule row (class `AlertRule` in tenant.py).  Only the columns the
alert evaluator reads are kept; `threshold` (a SQL numeric) is a `Rat`. -/
structure AlertRule where
  id : Nat
  metric_type : String
  operator : String
  threshold : Rat
  is_enabled : Bool
deriving DecidableEq, Repr

/-- Method `AlertRule.evaluate` (tenant.py lines 636-649): apply the rule operator
to the value and the threshold; an unrecognised operator falls through to
`False`. -/
def AlertRule.evaluate (rule : AlertRule) (value : Rat) : Bool :=
  if rule.operator = OP_GT then decide (value > rule.threshold)
  else if rule.operator = OP_GTE then decide (value ≥ rule.threshold)
  else if rule.operator = OP_LT then decide (value < rule.threshold)
  else if rule.operator = OP_LTE then decide (value ≤ rule.threshold)
  else if rule.operator = OP_EQ then decide (value = rule.threshold)
  else false

/-! ## Retention service (src/backend/app/services/retention_service.py)

The tenant `Setting` row with key `retention_days` is modelled as
`Option Int` (the stored value, or `none` when no row exists); a raised
`RetentionValidationError` is the explicit `validation_error` outcome. -/

/-- Constant `MIN_RETENTION_DAYS` (retention_service.py line 30). -/
def MIN_RETENTION_DAYS : Int := 1

/-- Constant `MAX_RETENTION_DAYS` (retention_service.py line 31). -/
def MAX_RETENTION_DAYS : Int := 365

/-- Constant `DEFAULT_RETENTION_DAYS` (retention_service.py line 32). -/
def DEFAULT_RETENTION_DAYS : Int := 30

/-- Outcome of `set_retention_days`: the returned value, or a raised
`RetentionValidationError` carrying its `field`. -/
inductive RetentionOutcome where
  | ok (days : Int)
  | validation_error (field : String)
deriving DecidableEq, Repr

/-- Method `get_retention_days` (retention_service.py lines 37-51): the stored
setting value, or the default when no setting row exists. -/
def get_retention_days (stored : Option Int) : Int :=
  stored.getD DEFAULT_RETENTION_DAYS

/-- Method `set_retention_days` (retention_service.py lines 53-86): validate the
bounds, raising `RetentionValidationError` before any write; otherwise
upsert the setting row, commit, and return the value.  The second component
is the stored setting after the call. -/
def set_retention_days (days : Int) (stored : Option Int) :
    RetentionOutcome × Option Int :=
  if days < MIN_RETENTION_DAYS then
    (.validation_error "retention_days", stored)
  else if days > MAX_RETENTION_DAYS then
    (.validation_error "retention_days", stored)
  else
    (.ok days, some days)

/-! ## Schedule calculator (src/backend/app/services/scheduler_service.py)

Timestamps are seconds as `Int`.  The croniter library is an external
collaborator not present in the repository; a cron expression is modelled
from the spec by its observable behaviour. -/

/-- Modelled from the spec: the croniter library used by
`calculate_next_run` (the library is external to the repository).  Per the
spec, a cron schedule either evaluates "the cron expression strictly after
`now`" (constructor `next`, carrying the evaluation function), or is an
invalid expression, whose construction raises `ValueError`/`KeyError`
(constructor `invalid`). -/
inductive CronEval where
  | next (f : Int → Int)
  | invalid

/-- The fallback expression `'0 * * * *'` used when `schedule_config` has no
`expression` key (scheduler_service.py line 121).  Modelled from the spec as
a valid hourly cron: the next top of the hour strictly after `t`. -/
def DEFAULT_CRON : CronEval :=
  .next (fun t => t + (3600 - t % 3600))

/-- The four `schedule_type` constants of class `Job` (tenant.py). -/
inductive ScheduleType where
  | once
  | interval
  | cron
  | event_triggered
deriving DecidableEq, Repr

/-- The `schedule_config` map of a job: the two keys the schedule calculator
reads (`interval_seconds`, `expression`), each possibly absent. -/
structure ScheduleConfig where
  interval_seconds : Option Int
  expression : Option CronEval

/-- A job row (class `Job` in tenant.py), restricted to the columns the
scheduler reads and writes. -/
structure Job where
  schedule_type : ScheduleType
  schedule_config : Option ScheduleConfig
  next_run_at : Option Int
  last_run_at : Option Int

/-- Method `SchedulerService.calculate_next_run` (scheduler_service.py lines
98-133).  `now` is the single `datetime.now` value of the call.  The
`try/except (ValueError, KeyError)` around the croniter call appears as the
match on `CronEval`: an invalid expression yields `none` rather than
propagating. -/
def calculate_next_run (now : Int) (job : Job) : Option Int :=
  let schedule_config := job.schedule_config.getD ⟨none, none⟩
  match job.schedule_type with
  | .once => none
  | .interval => some (now + schedule_config.interval_seconds.getD 3600)
  | .cron =>
    match schedule_config.expression.getD DEFAULT_CRON with
    | .next f => some (f now)
    | .invalid => none
  | .event_triggered => none

/-- Method `SchedulerService.update_job_after_execution` (scheduler_service.py
lines 135-149): set `last_run_at` to now and recompute `next_run_at`. -/
def update_job_after_execution (now : Int) (job : Job) : Job :=
  { job with last_run_at := some now, next_run_at := calculate_next_run now job }

/-! ## Alert evaluator (src/backend/app/services/alert_evaluator.py)

The evaluator state is the list of `Alert` rows of the tenant store plus the
in-memory `_resolved_count` dictionary (a total function defaulting to 0,
matching `dict.get(key, 0)`; deleting a key is setting it to 0).  Rows are
kept in insertion order; `session.add` appends; `.first()` takes the first
match.  The `rule_id:server_id` dictionary key is the pair of ids. -/

/-- The three `Alert.status` constants (tenant.py lines 657-660). -/
inductive AlertStatus where
  | active
  | acknowledged
  | resolved
deriving DecidableEq, Repr

/-- An alert row (class `Alert` in tenant.py), restricted to the columns the
evaluator reads and writes (timestamps and notes omitted). -/
structure Alert where
  rule_id : Nat
  server_id : Nat
  status : AlertStatus
  metric_value : Rat
deriving DecidableEq, Repr

/-- The `metrics` dictionary passed to `evaluate_server`: metric type to
current value, with unique keys. -/
abbrev Metrics := List (String × Rat)

/-- Python `metrics.get(key)`: the value of the first matching key. -/
def Metrics.get (m : Metrics) (key : String) : Option Rat :=
  (m.find? (fun p => p.1 = key)).map (·.2)

/-- Constant `AlertEvaluator.RESOLVE_THRESHOLD` (alert_evaluator.py line 16). -/
def RESOLVE_THRESHOLD : Nat := 2

/-- The evaluator state: the tenant store alert rows and the in-memory
consecutive-normal-reading counters. -/
structure EvaluatorState where
  alerts : List Alert
  resolved_count : Nat × Nat → Nat

/-- Method `AlertEvaluator._get_active_alert` (alert_evaluator.py lines 260-270):
the first alert of the pair whose status differs from resolved, returned
here as its index in the row list. -/
def getActiveAlertIdx (alerts : List Alert) (rule_id server_id : Nat) : Option Nat :=
  alerts.findIdx? (fun a =>
    decide (a.rule_id = rule_id ∧ a.server_id = server_id ∧ a.status ≠ .resolved))

/-- Method `AlertEvaluator._reset_resolve_counter` (alert_evaluator.py lines
272-276): drop the key, so that subsequent reads default to 0. -/
def resetResolveCounter (counters : Nat × Nat → Nat) (key : Nat × Nat) :
    Nat × Nat → Nat :=
  fun k => if k = key then 0 else counters k

/-- Set the alert at index `idx` to status resolved (the in-place
`existing.status = Alert.STATUS_RESOLVED` of alert_evaluator.py line 96). -/
def resolveAt : List Alert → Nat → List Alert
  | [], _ => []
  | a :: rest, 0 => { a with status := .resolved } :: rest
  | a :: rest, n + 1 => a :: resolveAt rest n

/-- Accumulator of the rule loop inside `evaluate_server`: the evolving
store rows and counters plus the `new_alerts` / `resolved_alerts` lists. -/
structure EvalAcc where
  alerts : List Alert
  counters : Nat × Nat → Nat
  new_alerts : List Alert
  resolved_alerts : List Alert

/-- One iteration of the `for rule in enabled_rules` loop of
`evaluate_server` (alert_evaluator.py lines 47-115): skip rules whose metric
is absent; on trigger create an alert when none is active for the pair and
reset the counter; otherwise increment the counter for an existing active
alert and resolve it once the counter reaches `RESOLVE_THRESHOLD`. -/
def evalRuleStep (server_id : Nat) (metrics : Metrics) (acc : EvalAcc)
    (rule : AlertRule) : EvalAcc :=
  match metrics.get rule.metric_type with
  | none => acc
  | some metric_value =>
    if rule.evaluate metric_value then
      let acc' :=
        match getActiveAlertIdx acc.alerts rule.id server_id with
        | some _ => acc
        | none =>
          let alert : Alert := ⟨rule.id, server_id, .active, metric_value⟩
          { acc with
              alerts := acc.alerts ++ [alert]
              new_alerts := acc.new_alerts ++ [alert] }
      { acc' with counters := resetResolveCounter acc'.counters (rule.id, server_id) }
    else
      match getActiveAlertIdx acc.alerts rule.id server_id with
      | none => acc
      | some idx =>
        let key := (rule.id, server_id)
        let c := acc.counters key + 1
        if RESOLVE_THRESHOLD ≤ c then
          let resolvedRow : Alert :=
            { (acc.alerts.getD idx ⟨rule.id, server_id, .active, metric_value⟩) with
                status := .resolved }
          { acc with
              alerts := resolveAt acc.alerts idx
              counters := resetResolveCounter acc.counters key
              resolved_alerts := acc.resolved_alerts ++ [resolvedRow] }
        else
          { acc with counters := fun k => if k = key then c else acc.counters k }

/-- The dictionary returned by `evaluate_server` (alert rows instead of
their `to_dict` serialisations). -/
structure EvalResult where
  new_alerts : List Alert
  resolved_alerts : List Alert
  active_count : Nat
deriving DecidableEq, Repr

/-- Method `AlertEvaluator.evaluate_server` (alert_evaluator.py lines 22-135):
filter the enabled rules, run the rule loop, and count the non-resolved
alerts of the server.  `rules` is the alert-rule table at call time. -/
def evaluate_server (rules : List AlertRule) (server_id : Nat)
    (metrics : Metrics) (st : EvaluatorState) : EvaluatorState × EvalResult :=
  let enabled_rules := rules.filter (·.is_enabled)
  let acc := enabled_rules.foldl (evalRuleStep server_id metrics)
    ⟨st.alerts, st.resolved_count, [], []⟩
  let active_count := (acc.alerts.filter (fun a =>
    decide (a.server_id = server_id ∧ a.status ≠ .resolved))).length
  (⟨acc.alerts, acc.counters⟩, ⟨acc.new_alerts, acc.resolved_alerts, active_count⟩)

/-- A sequence of `evaluate_server` calls: each call carries the alert-rule
table at that time, the server id and the metrics. -/
def runEvaluations (calls : List (List AlertRule × Nat × Metrics))
    (st : EvaluatorState) : EvaluatorState :=
  calls.foldl (fun s c => (evaluate_server c.1 c.2.1 c.2.2 s).1) st

/-- The uniqueness invariant of §3 of the spec: for every
`(rule_id, server_id)` pair, at most one non-resolved alert row exists. -/
def AlertInvariant (alerts : List Alert) : Prop :=
  ∀ rule_id server_id : Nat,
    (alerts.filter (fun a =>
      decide (a.rule_id = rule_id ∧ a.server_id = server_id ∧
        a.status ≠ .resolved))).length ≤ 1

/-! ## Metric collector unit of work (src/backend/workers/metric_collector.py)

`MetricCollector.collect_server` is one unit of work.  Its external effects
(credential decryption, connecting, the best-effort metric probes and the
commit) are supplied as an environment describing their outcomes for this
unit.  A probe that fails is simply absent from `metrics`. -/

/-- Outcomes of the external effects of one `collect_server` unit:
`decrypt` is the result of `decrypt_password` (`none` models a raised
`EncryptionError`), `connect_ok` whether `connector.connect` succeeds, and
`work_ok` whether the post-connect block (cursor, probes, snapshot insert,
commit) runs without an exception; `metrics` are the values the best-effort
probes return when the block runs. -/
structure CollectEnv where
  decrypt : Option String
  connect_ok : Bool
  work_ok : Bool
  metrics : Metrics

/-- A server row as `collect_server` reads it: only the encrypted
credential matters for the control flow modelled here. -/
structure CollServer where
  encrypted_password : Option String

/-- A `ServerSnapshot` row as built in collect_server (metric_collector.py
lines 230-243): one optional column per probe, filled from `metrics.get`. -/
structure ServerSnapshotRow where
  cpu_percent : Option Rat
  memory_percent : Option Rat
  connection_count : Option Rat
  batch_requests_sec : Option Rat
  page_life_expectancy : Option Rat
  blocked_processes : Option Rat
  status : String
deriving DecidableEq, Repr

/-- The observable outcome of one `collect_server` unit: the status written
by `_update_server_status`, whether a connection attempt was made, and the
`ServerSnapshot` rows inserted and committed for the server. -/
structure CollectOutcome where
  status : String
  connected : Bool
  snapshots : List ServerSnapshotRow
deriving DecidableEq, Repr

/-- The connect-and-collect tail of `collect_server` (metric_collector.py
lines 211-266): a connection failure marks the server offline; an exception
in the post-connect block marks it error (the failure is modelled as
occurring before the snapshot insert is committed); otherwise one snapshot
row is committed and the server is marked online. -/
def connectAndCollect (env : CollectEnv) : CollectOutcome :=
  if env.connect_ok then
    if env.work_ok then
      ⟨"online", true,
        [⟨env.metrics.get "cpu_percent", env.metrics.get "memory_percent",
          env.metrics.get "connection_count", env.metrics.get "batch_requests_sec",
          env.metrics.get "page_life_expectancy", env.metrics.get "blocked_processes",
          "online"⟩]⟩
    else ⟨"error", true, []⟩
  else ⟨"offline", true, []⟩

/-- Method `MetricCollector.collect_server` (metric_collector.py lines 175-274):
when the server has an encrypted password, decrypt it first; a decryption
failure marks the server error and returns before any connection attempt
and before any snapshot insert. -/
def collect_server (env : CollectEnv) (server : CollServer) : CollectOutcome :=
  match server.encrypted_password with
  | some _ =>
    match env.decrypt with
    | none => ⟨"error", false, []⟩
    | some _ => connectAndCollect env
  | none => connectAndCollect env

/-- One collection cycle over the due units of a tenant
(`MetricCollector.collect_tenant`, metric_collector.py lines 120-173): each
due (server, config) pair is an independent unit of work. -/
def collect_cycle (units : List (CollectEnv × CollServer)) : List CollectOutcome :=
  units.map (fun u => collect_server u.1 u.2)

/-! ## Retention cleanup batching (src/backend/workers/metrics_cleanup.py)

Time-series rows are modelled by their id and timestamp; the SQLAlchemy
filter `condition` is a Boolean predicate parameter, exactly as
`_delete_in_batches` receives it.  The worker is running (`self.running`)
throughout, and no batch raises.  The structural recursion carries a fuel
argument; `delete_in_batches` supplies `table.length + 1`, which is never
exhausted (each non-final pass removes at least one row). -/

/-- Constant `MetricsCleanup.BATCH_SIZE` (metrics_cleanup.py line 31). -/
def BATCH_SIZE : Nat := 10000

/-- A row of one of the cleaned time-series tables. -/
structure MetricRow where
  id : Nat
  collected_at : Int
deriving DecidableEq, Repr

/-- The loop body of `MetricsCleanup._delete_in_batches` (metrics_cleanup.py
lines 152-196) for batch size `b`: fetch the ids of up to `b` rows matching
`cond`, stop on an empty batch, delete the rows whose id is in the batch,
and repeat unless fewer than `b` rows were deleted.  Returns (total rows
deleted, number of delete passes executed, remaining table). -/
def deleteBatchesLoop (cond : MetricRow → Bool) (b : Nat) :
    Nat → List MetricRow → Nat × Nat × List MetricRow
  | 0, table => (0, 0, table)
  | fuel + 1, table =>
    let batchIds := ((table.filter cond).take b).map (·.id)
    if batchIds.isEmpty then (0, 0, table)
    else
      let deleted := (table.filter (fun r => batchIds.contains r.id)).length
      let table' := table.filter (fun r => !(batchIds.contains r.id))
      if deleted < b then (deleted, 1, table')
      else
        let rest := deleteBatchesLoop cond b fuel table'
        (deleted + rest.1, 1 + rest.2.1, rest.2.2)

/-- Method `MetricsCleanup._delete_in_batches` on one table, with batch size `b`. -/
def delete_in_batches (cond : MetricRow → Bool) (b : Nat)
    (table : List MetricRow) : Nat × Nat × List MetricRow :=
  deleteBatchesLoop cond b (table.length + 1) table

/-! ## Blocking-chain builder (src/backend/app/services/analytics_service.py)

The builder consumes the rows of one snapshot generation.  The class
`RunningQuerySnapshot` itself is defined outside the files under src/, so
its row type is modelled from the spec; only the two columns the builder
branches on are kept (the display columns copied into each node do not
affect the tree shape or the counts).  Non-blocked sessions store a null
`blocking_session_id` (the spec marks the column optional), so the Python
truthiness tests on it are the `Option` tests below.

`build_tree` recurses on an explicit fuel argument;
`_build_blocking_chains` supplies `queries.length + 1`, which is never
exhausted because each level inserts a fresh session id into `visited`. -/

/-- Modelled from the spec: class `RunningQuerySnapshot` (its definition is
not among the files under src/) — "immutable row describing one in-flight
query at `collected_at`, including `session_id`, `blocking_session_id?`,
timing and resource counters, and truncated query text".  Only the two
columns the chain builder reads are kept. -/
structure RunningQuerySnapshot where
  session_id : Nat
  blocking_session_id : Option Nat
deriving DecidableEq, Repr

/-- A node of the blocking-chain tree built by `build_tree`
(analytics_service.py lines 150-173): the session id and the `blocked`
children list, whose entries are `none` exactly where `build_tree` returned
`None` (a truncated revisited branch).  The display-only columns of the
Python dict are omitted. -/
inductive ChainNode where
  | mk (session_id : Nat) (blocked : List (Option ChainNode))

/-- The session id of a chain node. -/
def ChainNode.sid : ChainNode → Nat
  | .mk s _ => s

/-- The children list of a chain node. -/
def ChainNode.children : ChainNode → List (Option ChainNode)
  | .mk _ blocked => blocked

/-- The `by_session` dictionary lookup (analytics_service.py line 139):
built by a dict comprehension, so for a duplicated session id the later row
wins. -/
def bySessionGet (queries : List RunningQuerySnapshot) (sid : Nat) :
    Option RunningQuerySnapshot :=
  queries.reverse.find? (fun q => q.session_id == sid)

/-- The inner `build_tree(session_id, visited)` of
`AnalyticsService._build_blocking_chains` (analytics_service.py lines
150-173): stop on a session id already on the current DFS path, add the id
to the path, look the row up, and recurse into every row blocked by it,
each child receiving its own copy of the path set. -/
def build_tree (queries : List RunningQuerySnapshot) :
    Nat → Nat → Finset Nat → Option ChainNode
  | 0, _, _ => none
  | fuel + 1, session_id, visited =>
    if session_id ∈ visited then none
    else
      match bySessionGet queries session_id with
      | none => none
      | some q =>
        let blocked := queries.filter
          (fun r => r.blocking_session_id == some session_id)
        some (.mk q.session_id
          (blocked.map (fun b =>
            build_tree queries fuel b.session_id (insert session_id visited))))

/-- Method `AnalyticsService._build_blocking_chains` (analytics_service.py lines
136-175): the ids that block something, the root blockers (blocking
something but not themselves blocked), and one tree per root. -/
def build_blocking_chains (queries : List RunningQuerySnapshot) :
    List (Option ChainNode) :=
  let blocked_by_ids := queries.filterMap (·.blocking_session_id)
  let root_blockers := queries.filter (fun q =>
    decide (q.session_id ∈ blocked_by_ids) && q.blocking_session_id.isNone)
  root_blockers.map (fun r => build_tree queries (queries.length + 1) r.session_id ∅)

mutual

/-- Method `AnalyticsService._count_blocked` (analytics_service.py lines 177-182)
on a node: `len(blocked)` — which counts `None` entries — plus the counts
of the non-`None` children. -/
def count_blocked : ChainNode → Nat
  | .mk _ blocked => blocked.length + countBlockedList blocked

/-- The `sum(self._count_blocked(b) for b in blocked if b)` part of
`_count_blocked`: `None` entries are skipped by the `if b` filter. -/
def countBlockedList : List (Option ChainNode) → Nat
  | [] => 0
  | none :: rest => countBlockedList rest
  | some c :: rest => count_blocked c + countBlockedList rest

end

/-- Method `_count_blocked` on an optional node: `if not node: return 0`. -/
def countBlockedOpt : Option ChainNode → Nat
  | none => 0
  | some c => count_blocked c

/-- The `total_blocked_sessions` value of
`AnalyticsService.get_blocking_chains` (analytics_service.py line 129):
the sum of `_count_blocked` over the returned chains. -/
def total_blocked_sessions (queries : List RunningQuerySnapshot) : Nat :=
  ((build_blocking_chains queries).map countBlockedOpt).sum

mutual

/-- All session ids of the non-`None` nodes of a tree, root first. -/
def ChainNode.sidsIn : ChainNode → List Nat
  | .mk s blocked => s :: sidsInList blocked

/-- Session ids of the non-`None` nodes of a children list, in order. -/
def sidsInList : List (Option ChainNode) → List Nat
  | [] => []
  | none :: rest => sidsInList rest
  | some c :: rest => c.sidsIn ++ sidsInList rest

end

mutual

/-- Whether a tree has no truncated (`none`) child entry anywhere. -/
def ChainNode.noneFree : ChainNode → Bool
  | .mk _ blocked => noneFreeList blocked

/-- Whether a children list has no `none` entry, recursively. -/
def noneFreeList : List (Option ChainNode) → Bool
  | [] => true
  | none :: _ => false
  | some c :: rest => c.noneFree && noneFreeList rest

end

mutual

/-- Following the words of the spec sentence behind claim C5: the set of
distinct blocked descendant sessions of a tree — every session appearing at
a non-root node, a truncated (`none`) entry contributing nothing. -/
def specBlockedSessions : ChainNode → Finset Nat
  | .mk _ blocked => specBlockedSessionsList blocked

/-- The blocked descendant sessions contributed by a children list: each
non-`None` child's session together with its own blocked descendants. -/
def specBlockedSessionsList : List (Option ChainNode) → Finset Nat
  | [] => ∅
  | none :: rest => specBlockedSessionsList rest
  | some c :: rest => insert c.sid (specBlockedSessions c) ∪ specBlockedSessionsList rest

end

/-- Following the words of the spec sentence behind claim C5: the number of
distinct blocked descendant sessions summed across all returned trees. -/
def specTotalBlockedSessions (queries : List RunningQuerySnapshot) : Nat :=
  ((build_blocking_chains queries).map (fun o =>
    match o with
    | none => 0
    | some t => (specBlockedSessions t).card)).sum

/-! ### Proof infrastructure for the blocking-chain theorems -/

/-- The blocker of a session id, as the chain builder resolves it: the
`blocking_session_id` of the `by_session` row for that id. -/
def pb (queries : List RunningQuerySnapshot) (x : Nat) : Option Nat :=
  (bySessionGet queries x).bind (·.blocking_session_id)

/-- Iterated blocker lookup: the session reached after `k` upward steps. -/
def pbIter (queries : List RunningQuerySnapshot) : Nat → Nat → Option Nat
  | 0, x => some x
  | k + 1, x => (pb queries x).bind (pbIter queries k)

/-- Session `x` reaches `c` by iterating the blocker lookup. -/
def pbReaches (queries : List RunningQuerySnapshot) (x c : Nat) : Prop :=
  ∃ k, pbIter queries k x = some c

/-- A DFS path of the chain builder, nearest node first: nonempty, without
duplicates, each element the blocker of its predecessor, and its last
element (the root) with no blocker. -/
def GoodPath (queries : List RunningQuerySnapshot) (l : List Nat) : Prop :=
  l ≠ [] ∧ l.Nodup ∧ l.Chain' (fun a b => pb queries a = some b) ∧
    ∀ h : l ≠ [], pb queries (l.getLast h) = none

/-! ## Theorems -/

/-- Claim C9: `AlertRule.evaluate` is total — for every value and threshold
it returns the value-vs-threshold comparison for each of the five operators
`gt`, `gte`, `lt`, `lte`, `eq`, and returns `False` (without raising, hence
without triggering an alert) for every operator string outside these
five. -/
theorem alertRule_evaluate_total (idv : Nat) (mt : String) (en : Bool)
    (value threshold : Rat) (op : String) (hop : op ∉ VALID_OPERATORS) :
    (AlertRule.evaluate ⟨idv, mt, OP_GT, threshold, en⟩ value
      = decide (value > threshold)) ∧
    (AlertRule.evaluate ⟨idv, mt, OP_GTE, threshold, en⟩ value
      = decide (value ≥ threshold)) ∧
    (AlertRule.evaluate ⟨idv, mt, OP_LT, threshold, en⟩ value
      = decide (value < threshold)) ∧
    (AlertRule.evaluate ⟨idv, mt, OP_LTE, threshold, en⟩ value
      = decide (value ≤ threshold)) ∧
    (AlertRule.evaluate ⟨idv, mt, OP_EQ, threshold, en⟩ value
      = decide (value = threshold)) ∧
    (AlertRule.evaluate ⟨idv, mt, op, threshold, en⟩ value = false) := by
  simp only [VALID_OPERATORS, OP_GT, OP_GTE, OP_LT, OP_LTE, OP_EQ,
    List.mem_cons, List.not_mem_nil, or_false, not_or] at hop
  obtain ⟨h1, h2, h3, h4, h5⟩ := hop
  refine ⟨?_, ?_, ?_, ?_, ?_, ?_⟩ <;>
    simp [AlertRule.evaluate, OP_GT, OP_GTE, OP_LT, OP_LTE, OP_EQ,
      h1, h2, h3, h4, h5]

/-- Witness for C9 at a concrete unrecognised operator. -/
theorem alertRule_evaluate_total_witness :
    "between" ∉ VALID_OPERATORS ∧
    AlertRule.evaluate ⟨0, "cpu_percent", "between", 90, true⟩ 95 = false :=
  ⟨by decide,
    (alertRule_evaluate_total 0 "cpu_percent" true 95 90 "between"
      (by decide)).2.2.2.2.2⟩

/-- Claim C10: `set_retention_days` accepts exactly the integers in
`[1, 365]`: inside the range it persists the value and returns it, and
`get_retention_days` then returns it; outside the range it raises
`RetentionValidationError` before performing any write, leaving the stored
setting unchanged. -/
theorem set_retention_days_spec (days : Int) (stored : Option Int) :
    (MIN_RETENTION_DAYS ≤ days → days ≤ MAX_RETENTION_DAYS →
      set_retention_days days stored = (.ok days, some days) ∧
      get_retention_days (set_retention_days days stored).2 = days) ∧
    ((days < MIN_RETENTION_DAYS ∨ MAX_RETENTION_DAYS < days) →
      set_retention_days days stored = (.validation_error "retention_days", stored)) := by
  simp only [MIN_RETENTION_DAYS, MAX_RETENTION_DAYS] at *
  constructor
  · intro h1 h2
    have hlt : ¬ days < 1 := by omega
    have hgt : ¬ days > 365 := by omega
    simp [set_retention_days, MIN_RETENTION_DAYS, MAX_RETENTION_DAYS,
      hlt, hgt, get_retention_days]
  · intro h
    rcases h with h | h
    · simp [set_retention_days, MIN_RETENTION_DAYS, h]
    · have hlt : ¬ days < 1 := by omega
      simp [set_retention_days, MIN_RETENTION_DAYS, MAX_RETENTION_DAYS,
        hlt, h]

/-- Witness for C10: an in-range write (30) and an out-of-range rejection
(0) at concrete stored settings. -/
theorem set_retention_days_spec_witness :
    (set_retention_days 30 none = (.ok 30, some 30) ∧
      get_retention_days (set_retention_days 30 none).2 = 30) ∧
    set_retention_days 0 (some 45) = (.validation_error "retention_days", some 45) :=
  ⟨(set_retention_days_spec 30 none).1 (by decide) (by decide),
    (set_retention_days_spec 0 (some 45)).2 (Or.inl (by decide))⟩

/-- Claim C3: for an enabled interval job with configured integer
`interval_seconds = i ≥ 60`, recomputation after a run at time `now` sets
`last_run_at := now` and `next_run_at := now + i`, which is never earlier
than `now`. -/
theorem interval_update_after_execution
    (now i : Int) (e : Option CronEval) (nr lr : Option Int) (hi : 60 ≤ i) :
    (update_job_after_execution now ⟨.interval, some ⟨some i, e⟩, nr, lr⟩).last_run_at
      = some now ∧
    (update_job_after_execution now ⟨.interval, some ⟨some i, e⟩, nr, lr⟩).next_run_at
      = some (now + i) ∧
    now ≤ now + i :=
  ⟨rfl, rfl, by omega⟩

/-- Witness for C3, Scenario A with `T = 0`: `interval_seconds = 60`, one
execution completing at `T + 5` yields `last_run_at = T + 5` and
`next_run_at = T + 65`. -/
theorem interval_update_after_execution_witness :
    (update_job_after_execution 5 ⟨.interval, some ⟨some 60, none⟩, none, none⟩).last_run_at
      = some 5 ∧
    (update_job_after_execution 5 ⟨.interval, some ⟨some 60, none⟩, none, none⟩).next_run_at
      = some 65 := by
  have h := interval_update_after_execution 5 60 none none none (by decide)
  exact ⟨h.1, by simpa using h.2.1⟩

/-- Claim C6: for a cron job, a valid configured expression (one whose
croniter evaluation yields a time strictly after any given time, per the
spec contract) makes `calculate_next_run` return that strictly-later time;
an invalid expression (whose croniter construction raises) makes it return
`none` without propagating — the raise is the `CronEval.invalid` arm, which
the embedded `try/except` maps to `none`; a missing expression key falls
back to the default hourly expression, again strictly after `now`.  The
Lean function is total, embedding "never propagates an exception". -/
theorem cron_calculate_next_run (now : Int) (is : Option Int) (nr lr : Option Int) :
    (∀ f : Int → Int, (∀ t, t < f t) →
      calculate_next_run now ⟨.cron, some ⟨is, some (.next f)⟩, nr, lr⟩
        = some (f now) ∧ now < f now) ∧
    (calculate_next_run now ⟨.cron, some ⟨is, some .invalid⟩, nr, lr⟩ = none) ∧
    (∃ t, calculate_next_run now ⟨.cron, some ⟨is, none⟩, nr, lr⟩ = some t ∧
      now < t) := by
  refine ⟨fun f hf => ⟨rfl, hf now⟩, rfl, ?_⟩
  refine ⟨now + (3600 - now % 3600), rfl, ?_⟩
  have h1 : now % 3600 < 3600 := Int.emod_lt_of_pos now (by decide)
  have h2 : 0 ≤ now % 3600 := Int.emod_nonneg now (by decide)
  omega

/-- Witness for C6 at a concrete valid and a concrete invalid expression. -/
theorem cron_calculate_next_run_witness :
    calculate_next_run 100 ⟨.cron, some ⟨none, some (.next (fun t => t + 60))⟩, none, none⟩
      = some 160 ∧
    (100 : Int) < 160 ∧
    calculate_next_run 100 ⟨.cron, some ⟨none, some .invalid⟩, none, none⟩ = none := by
  have h := (cron_calculate_next_run 100 none none none).1 (fun t => t + 60)
    (fun t => by show t < t + 60; omega)
  have h2 := (cron_calculate_next_run 100 none none none).2.1
  exact ⟨by simpa using h.1, by decide, h2⟩

/-! ### Alert evaluator lemmas -/

/-- A list whose `findIdx?` finds nothing filters to the empty list. -/
theorem filter_eq_nil_of_findIdx?_none {α : Type} (p : α → Bool) (l : List α)
    (h : l.findIdx? p = none) : l.filter p = [] := by
  rw [List.findIdx?_eq_none_iff] at h
  rw [List.filter_eq_nil_iff]
  intro a ha
  simpa using h a ha

/-- Resolving one alert row never increases the number of rows matching a
predicate that rejects resolved rows. -/
theorem resolveAt_filter_length_le (p : Alert → Bool)
    (hp : ∀ a : Alert, p { a with status := .resolved } = false) :
    ∀ (l : List Alert) (i : Nat),
      ((resolveAt l i).filter p).length ≤ (l.filter p).length := by
  intro l
  induction l with
  | nil => intro i; simp [resolveAt]
  | cons a rest ih =>
    intro i
    cases i with
    | zero =>
      simp only [resolveAt, List.filter_cons, hp a]
      cases hpa : p a <;> simp [hpa]
    | succ n =>
      simp only [resolveAt, List.filter_cons]
      cases hpa : p a <;> simp [hpa] <;> exact ih n

/-- One rule-loop iteration preserves the per-pair uniqueness invariant:
an alert is created only when `_get_active_alert` found none for the pair,
and resolving only removes matches. -/
theorem evalRuleStep_invariant (server_id : Nat) (metrics : Metrics)
    (rule : AlertRule) (acc : EvalAcc) (h : AlertInvariant acc.alerts) :
    AlertInvariant (evalRuleStep server_id metrics acc rule).alerts := by
  unfold evalRuleStep
  cases hm : metrics.get rule.metric_type with
  | none => exact h
  | some v =>
    by_cases he : rule.evaluate v = true
    · simp only [he, if_true]
      cases hidx : getActiveAlertIdx acc.alerts rule.id server_id with
      | some j => simpa using h
      | none =>
        simp only
        intro rid sid
        rw [List.filter_append]
        by_cases hpair : rid = rule.id ∧ sid = server_id
        · obtain ⟨h1, h2⟩ := hpair
          subst h1; subst h2
          have hnil := filter_eq_nil_of_findIdx?_none _ _ hidx
          rw [hnil]
          simp
        · have hone : (([⟨rule.id, server_id, .active, v⟩] : List Alert).filter
              (fun a => decide (a.rule_id = rid ∧ a.server_id = sid ∧
                a.status ≠ .resolved))) = [] := by
            simp only [List.filter_cons, List.filter_nil]
            have : ¬ (rid = rule.id ∧ sid = server_id) := hpair
            split
            · rename_i hcond
              simp only [decide_eq_true_eq] at hcond
              exact absurd ⟨hcond.1.symm, hcond.2.1.symm⟩ this
            · rfl
          rw [hone]
          simpa using h rid sid
    · have he' : rule.evaluate v = false := by simpa using he
      simp only [he', Bool.false_eq_true, if_false]
      cases hidx : getActiveAlertIdx acc.alerts rule.id server_id with
      | none => simpa using h
      | some idx =>
        simp only
        split
        · show AlertInvariant (resolveAt acc.alerts idx)
          intro rid sid
          exact le_trans
            (resolveAt_filter_length_le _ (fun a => by simp) acc.alerts idx)
            (h rid sid)
        · show AlertInvariant acc.alerts
          exact h

/-- The whole rule loop preserves the invariant. -/
theorem foldl_evalRuleStep_invariant (server_id : Nat) (metrics : Metrics) :
    ∀ (rules : List AlertRule) (acc : EvalAcc), AlertInvariant acc.alerts →
      AlertInvariant (rules.foldl (evalRuleStep server_id metrics) acc).alerts := by
  intro rules
  induction rules with
  | nil => intro acc h; exact h
  | cons r rest ih =>
    intro acc h
    exact ih _ (evalRuleStep_invariant server_id metrics r acc h)

/-- One `evaluate_server` call preserves the invariant. -/
theorem evaluate_server_invariant (rules : List AlertRule) (server_id : Nat)
    (metrics : Metrics) (st : EvaluatorState) (h : AlertInvariant st.alerts) :
    AlertInvariant (evaluate_server rules server_id metrics st).1.alerts := by
  unfold evaluate_server
  exact foldl_evalRuleStep_invariant server_id metrics _ _ h

/-- Claim C1: for every `(rule_id, server_id)` pair at most one non-resolved
alert exists at any time — `evaluate_server` creates a new active alert for
a triggered rule only when no non-resolved alert for the pair exists, so
every sequence of `evaluate_server` calls starting from a state satisfying
the invariant preserves it. -/
theorem alert_uniqueness_invariant_preserved
    (calls : List (List AlertRule × Nat × Metrics)) (st : EvaluatorState)
    (h : AlertInvariant st.alerts) :
    AlertInvariant (runEvaluations calls st).alerts := by
  induction calls generalizing st with
  | nil => exact h
  | cons c rest ih =>
    simp only [runEvaluations, List.foldl_cons]
    exact ih _ (evaluate_server_invariant c.1 c.2.1 c.2.2 st h)

/-- Witness for C1: the empty state satisfies the invariant and a concrete
two-call sequence (the same rule triggering twice) preserves it. -/
theorem alert_uniqueness_invariant_preserved_witness :
    AlertInvariant ([] : List Alert) ∧
    AlertInvariant (runEvaluations
      [([⟨1, "cpu_percent", "gt", 90, true⟩], 7, [("cpu_percent", 95)]),
       ([⟨1, "cpu_percent", "gt", 90, true⟩], 7, [("cpu_percent", 95)])]
      ⟨[], fun _ => 0⟩).alerts := by
  have h0 : AlertInvariant ([] : List Alert) := by
    intro rid sid; simp
  exact ⟨h0, alert_uniqueness_invariant_preserved _ _ h0⟩

/-- Claim C2: hysteresis with resolve threshold 2 (Scenario B).  With no
alert for the pair and one enabled rule (cpu_percent, gt, 90), evaluating
with `cpu_percent = 95` creates exactly one new active alert; the next call
with `cpu_percent = 50` leaves it active with the consecutive-normal counter
at 1; a second consecutive call with `cpu_percent = 50` transitions the
alert to resolved and resets the counter to its default 0. -/
theorem hysteresis_scenario_b :
    (let rule : AlertRule := ⟨1, "cpu_percent", "gt", 90, true⟩
     let s1 := evaluate_server [rule] 7 [("cpu_percent", 95)] ⟨[], fun _ => 0⟩
     let s2 := evaluate_server [rule] 7 [("cpu_percent", 50)] s1.1
     let s3 := evaluate_server [rule] 7 [("cpu_percent", 50)] s2.1
     s1.2.new_alerts = [⟨1, 7, .active, 95⟩] ∧
     s1.1.alerts = [⟨1, 7, .active, 95⟩] ∧
     s1.1.resolved_count (1, 7) = 0 ∧
     s2.2.resolved_alerts = [] ∧
     s2.1.alerts = [⟨1, 7, .active, 95⟩] ∧
     s2.1.resolved_count (1, 7) = 1 ∧
     s3.2.resolved_alerts = [⟨1, 7, .resolved, 95⟩] ∧
     s3.1.alerts = [⟨1, 7, .resolved, 95⟩] ∧
     s3.1.resolved_count (1, 7) = 0) := by
  decide

/-- Claim C7: a unit of work whose credential decryption fails ends with
server status `error`, zero snapshot rows, and no connection attempt; and in
a cycle containing it, every other unit's outcome is exactly its own
`collect_server` value — in particular a healthy unit still produces its one
snapshot and ends online. -/
theorem collect_decrypt_failure_isolated
    (env envj : CollectEnv) (server serverj : CollServer) (ct : String)
    (henc : server.encrypted_password = some ct)
    (hdec : env.decrypt = none)
    (hj : serverj.encrypted_password = none ∨ envj.decrypt.isSome = true)
    (hconn : envj.connect_ok = true) (hwork : envj.work_ok = true) :
    collect_server env server = ⟨"error", false, []⟩ ∧
    (collect_server envj serverj).status = "online" ∧
    (collect_server envj serverj).snapshots.length = 1 ∧
    ∀ pre mid post : List (CollectEnv × CollServer),
      collect_cycle (pre ++ (env, server) :: mid ++ (envj, serverj) :: post) =
        collect_cycle pre ++ ⟨"error", false, []⟩ :: collect_cycle mid ++
          collect_server envj serverj :: collect_cycle post := by
  have h1 : collect_server env server = ⟨"error", false, []⟩ := by
    simp [collect_server, henc, hdec]
  have h2 : collect_server envj serverj = connectAndCollect envj := by
    rcases hj with hj | hj
    · simp [collect_server, hj]
    · obtain ⟨pw, hpw⟩ := Option.isSome_iff_exists.mp hj
      cases hs : serverj.encrypted_password with
      | none => simp [collect_server, hs]
      | some c => simp [collect_server, hs, hpw]
  refine ⟨h1, ?_, ?_, ?_⟩
  · rw [h2]; simp [connectAndCollect, hconn, hwork]
  · rw [h2]; simp [connectAndCollect, hconn, hwork]
  · intro pre mid post
    simp [collect_cycle, h1]

/-- Witness for C7: a two-unit cycle where the first unit's decryption
fails and the second unit is healthy. -/
theorem collect_decrypt_failure_isolated_witness :
    collect_server ⟨none, true, true, []⟩ ⟨some "ct"⟩ = ⟨"error", false, []⟩ ∧
    (collect_server ⟨some "pw", true, true, [("cpu_percent", 50)]⟩ ⟨none⟩).status
      = "online" ∧
    (collect_server ⟨some "pw", true, true, [("cpu_percent", 50)]⟩ ⟨none⟩).snapshots.length
      = 1 ∧
    collect_cycle [(⟨none, true, true, []⟩, ⟨some "ct"⟩),
        (⟨some "pw", true, true, [("cpu_percent", 50)]⟩, ⟨none⟩)] =
      [⟨"error", false, []⟩,
        collect_server ⟨some "pw", true, true, [("cpu_percent", 50)]⟩ ⟨none⟩] := by
  have h := collect_decrypt_failure_isolated
    ⟨none, true, true, []⟩ ⟨some "pw", true, true, [("cpu_percent", 50)]⟩
    ⟨some "ct"⟩ ⟨none⟩ "ct" rfl rfl (Or.inr rfl) rfl rfl
  exact ⟨h.1, h.2.1, h.2.2.1, by simpa using h.2.2.2 [] [] []⟩

/-! ### Retention cleanup lemmas -/

/-- Every row matching `cond` has its id in a batch that captured the whole
matching set. -/
theorem mem_batchIds_of_mem_filter (cond : MetricRow → Bool) (b : Nat)
    (table : List MetricRow) (hle : (table.filter cond).length ≤ b) :
    ∀ r ∈ table.filter cond,
      (((table.filter cond).take b).map (·.id)).contains r.id = true := by
  intro r hr
  rw [List.take_of_length_le hle]
  exact List.elem_iff.mpr (List.mem_map_of_mem _ hr)

/-- At least as many rows are deleted as the batch fetched: every fetched
row is a table row whose id is in the batch. -/
theorem batch_length_le_deleted (cond : MetricRow → Bool) (b : Nat)
    (table : List MetricRow) :
    ((table.filter cond).take b).length ≤
      (table.filter (fun r =>
        (((table.filter cond).take b).map (·.id)).contains r.id)).length := by
  rw [← List.countP_eq_length_filter]
  have hsub : List.Sublist ((table.filter cond).take b) table :=
    ((table.filter cond).take_sublist b).trans (List.filter_sublist table)
  refine le_trans (le_of_eq ?_) (List.Sublist.countP_le _ hsub)
  symm
  rw [List.countP_eq_length]
  intro r hr
  exact List.elem_iff.mpr (List.mem_map_of_mem _ hr)

/-- When the batch captured every matching row, deleting by the batch ids
leaves no matching row. -/
theorem remaining_clear_of_full (cond : MetricRow → Bool) (b : Nat)
    (table : List MetricRow) (hle : (table.filter cond).length ≤ b) :
    (table.filter (fun r =>
      !((((table.filter cond).take b).map (·.id)).contains r.id))).filter cond
      = [] := by
  rw [List.filter_filter, List.filter_eq_nil_iff]
  intro r hr h
  simp only [Bool.and_eq_true, Bool.not_eq_true'] at h
  have hmem := mem_batchIds_of_mem_filter cond b table hle r
    (List.mem_filter.mpr ⟨hr, h.1⟩)
  rw [hmem] at h
  exact absurd h.2 (by simp)

/-- With enough fuel the loop leaves no row matching `cond`. -/
theorem deleteBatchesLoop_clears (cond : MetricRow → Bool) (b : Nat) (hb : 0 < b) :
    ∀ (fuel : Nat) (table : List MetricRow), table.length < fuel →
      (deleteBatchesLoop cond b fuel table).2.2.filter cond = [] := by
  intro fuel
  induction fuel with
  | zero => intro table h; exact absurd h (Nat.not_lt_zero _)
  | succ f ih =>
    intro table hlen
    simp only [deleteBatchesLoop]
    by_cases hemp : (((table.filter cond).take b).map (·.id)).isEmpty = true
    · rw [if_pos hemp]
      show table.filter cond = []
      cases hf : table.filter cond with
      | nil => rfl
      | cons x xs =>
        exfalso
        rw [hf] at hemp
        cases b with
        | zero => omega
        | succ b' => simp [List.take_succ_cons] at hemp
    · rw [if_neg hemp]
      by_cases hlt : (table.filter (fun r =>
          (((table.filter cond).take b).map (·.id)).contains r.id)).length < b
      · rw [if_pos hlt]
        show (table.filter (fun r =>
          !((((table.filter cond).take b).map (·.id)).contains r.id))).filter cond = []
        have hSdel := batch_length_le_deleted cond b table
        have hflt : (table.filter cond).length ≤ b := by
          have h1 := List.length_take b (table.filter cond)
          omega
        exact remaining_clear_of_full cond b table hflt
      · rw [if_neg hlt]
        show (deleteBatchesLoop cond b f (table.filter (fun r =>
          !((((table.filter cond).take b).map (·.id)).contains r.id)))).2.2.filter cond = []
        apply ih
        have hstrict : (table.filter (fun r =>
            !((((table.filter cond).take b).map (·.id)).contains r.id))).length
            < table.length := by
          apply List.length_filter_lt_length_iff_exists.mpr
          obtain ⟨r, hrS⟩ : ∃ r, r ∈ (table.filter cond).take b := by
            cases hS : (table.filter cond).take b with
            | nil => exfalso; rw [hS] at hemp; simp at hemp
            | cons x xs => exact ⟨x, by simp [hS]⟩
          have hrt : r ∈ table :=
            (((table.filter cond).take_sublist b).trans
              (List.filter_sublist table)).mem hrS
          refine ⟨r, hrt, ?_⟩
          have hcont : ((((table.filter cond).take b).map (·.id)).contains r.id)
              = true := List.elem_iff.mpr (List.mem_map_of_mem _ hrS)
          rw [hcont]
          decide
        omega

/-- A table with no matching row causes no delete pass. -/
theorem deleteBatchesLoop_no_pass (cond : MetricRow → Bool) (b fuel : Nat)
    (table : List MetricRow) (h : table.filter cond = []) :
    (deleteBatchesLoop cond b fuel table).2.1 = 0 := by
  cases fuel with
  | zero => rfl
  | succ f => simp [deleteBatchesLoop, h]

/-- With exactly `b` matching rows, the loop performs exactly one delete
pass: the batch captures all of them, at least `b` rows are deleted so the
loop iterates once more, and the second fetch is empty. -/
theorem deleteBatchesLoop_single_pass (cond : MetricRow → Bool) (b : Nat)
    (hb : 0 < b) (f : Nat) (table : List MetricRow)
    (hcount : (table.filter cond).length = b) :
    (deleteBatchesLoop cond b (f + 1) table).2.1 = 1 := by
  simp only [deleteBatchesLoop]
  have hemp : ¬ (((table.filter cond).take b).map (·.id)).isEmpty = true := by
    rw [List.take_of_length_le (le_of_eq hcount)]
    cases hfc : table.filter cond with
    | nil => rw [hfc] at hcount; simp at hcount; omega
    | cons x xs => simp
  rw [if_neg hemp]
  have hge : ¬ (table.filter (fun r =>
      (((table.filter cond).take b).map (·.id)).contains r.id)).length < b := by
    have h1 := batch_length_le_deleted cond b table
    have h2 : ((table.filter cond).take b).length = b := by
      rw [List.take_of_length_le (le_of_eq hcount)]
      exact hcount
    omega
  rw [if_neg hge]
  have hclear := remaining_clear_of_full cond b table (le_of_eq hcount)
  have hz := deleteBatchesLoop_no_pass cond b f _ hclear
  show 1 + (deleteBatchesLoop cond b f (table.filter (fun r =>
    !((((table.filter cond).take b).map (·.id)).contains r.id)))).2.1 = 1
  rw [hz]

/-- Claim C8: retention batched deletion.  `BATCH_SIZE` is 10,000; for any
batch size `b > 0` the fetch-delete-commit loop terminates with zero rows
matching the cutoff condition remaining (every old row is eventually
deleted), and when exactly `b` rows match — in particular 10,000 rows with
the default batch size — exactly one batch delete pass is performed. -/
theorem delete_in_batches_spec (cond : MetricRow → Bool) (b : Nat)
    (table : List MetricRow) (hb : 0 < b) :
    BATCH_SIZE = 10000 ∧
    (delete_in_batches cond b table).2.2.filter cond = [] ∧
    ((table.filter cond).length = b → (delete_in_batches cond b table).2.1 = 1) := by
  refine ⟨rfl, ?_, ?_⟩
  · exact deleteBatchesLoop_clears cond b hb (table.length + 1) table (by omega)
  · intro hcount
    exact deleteBatchesLoop_single_pass cond b hb table.length table hcount

/-- Witness for C8: a two-row table, batch size two, cutoff after both rows:
one delete pass removes everything. -/
theorem delete_in_batches_spec_witness :
    BATCH_SIZE = 10000 ∧
    (delete_in_batches (fun r => decide (r.collected_at < 5)) 2
      [⟨1, 0⟩, ⟨2, 0⟩]).2.2.filter (fun r => decide (r.collected_at < 5)) = [] ∧
    (delete_in_batches (fun r => decide (r.collected_at < 5)) 2
      [⟨1, 0⟩, ⟨2, 0⟩]).2.1 = 1 := by
  have h := delete_in_batches_spec (fun r => decide (r.collected_at < 5)) 2
    [⟨1, 0⟩, ⟨2, 0⟩] (by decide)
  exact ⟨h.1, h.2.1, h.2.2 (by decide)⟩

/-- Claim C4, Scenario C: for the snapshot generation of exactly three
queries forming a blocking cycle (1 blocked by 3, 2 blocked by 1, 3 blocked
by 2), the chain builder returns zero root-blocker trees and
`total_blocked_sessions = 0`: a root blocker must block some session while
having no `blocking_session_id` itself, and every session of the cycle is
blocked. -/
theorem blocking_cycle_scenario_c :
    (build_blocking_chains [⟨1, some 3⟩, ⟨2, some 1⟩, ⟨3, some 2⟩]).length = 0 ∧
    total_blocked_sessions [⟨1, some 3⟩, ⟨2, some 1⟩, ⟨3, some 2⟩] = 0 := by
  decide

/-! ### Blocking-chain lemmas for distinct session ids -/

/-- With unique keys, `find?` by session id returns the containing row. -/
theorem find?_sid_self (l : List RunningQuerySnapshot)
    (hnd : (l.map RunningQuerySnapshot.session_id).Nodup)
    (r : RunningQuerySnapshot) (hr : r ∈ l) :
    l.find? (fun q => q.session_id == r.session_id) = some r := by
  induction l with
  | nil => cases hr
  | cons a rest ih =>
    rw [List.map_cons, List.nodup_cons] at hnd
    by_cases hpa : (a.session_id == r.session_id) = true
    · have hfind : (a :: rest).find? (fun q => q.session_id == r.session_id)
          = some a := by simp [List.find?_cons, hpa]
      rw [hfind]
      rcases List.mem_cons.mp hr with h | h
      · rw [h]
      · exfalso
        have : a.session_id = r.session_id := by simpa using hpa
        exact hnd.1 (this ▸ List.mem_map_of_mem _ h)
    · have hfind : (a :: rest).find? (fun q => q.session_id == r.session_id)
          = rest.find? (fun q => q.session_id == r.session_id) := by
        simp [List.find?_cons, hpa]
      rw [hfind]
      rcases List.mem_cons.mp hr with h | h
      · exfalso; rw [h] at hpa; simp at hpa
      · exact ih hnd.2 h

/-- With distinct session ids the `by_session` lookup of a row's id is the
row itself. -/
theorem bySessionGet_self (queries : List RunningQuerySnapshot)
    (hnd : (queries.map RunningQuerySnapshot.session_id).Nodup)
    (r : RunningQuerySnapshot) (hr : r ∈ queries) :
    bySessionGet queries r.session_id = some r := by
  unfold bySessionGet
  refine find?_sid_self queries.reverse ?_ r (List.mem_reverse.mpr hr)
  rw [List.map_reverse]
  exact List.nodup_reverse.mpr hnd

/-- With distinct session ids, the blocker lookup of a row's id is the
row's own `blocking_session_id`. -/
theorem pb_eq_blocking (queries : List RunningQuerySnapshot)
    (hnd : (queries.map RunningQuerySnapshot.session_id).Nodup)
    (r : RunningQuerySnapshot) (hr : r ∈ queries) :
    pb queries r.session_id = r.blocking_session_id := by
  unfold pb
  rw [bySessionGet_self queries hnd r hr]
  rfl

/-- Peeling the last step of an iterated blocker lookup. -/
theorem pbIter_succ_right (queries : List RunningQuerySnapshot) :
    ∀ (k x : Nat),
      pbIter queries (k + 1) x = (pbIter queries k x).bind (pb queries) := by
  intro k
  induction k with
  | zero => intro x; simp [pbIter]
  | succ n ih =>
    intro x
    show (pb queries x).bind (pbIter queries (n + 1))
      = ((pb queries x).bind (pbIter queries n)).bind (pb queries)
    cases pb queries x with
    | none => rfl
    | some y => simpa using ih y

/-- Splitting an iterated blocker lookup. -/
theorem pbIter_add (queries : List RunningQuerySnapshot) :
    ∀ (a b x : Nat),
      pbIter queries (a + b) x = (pbIter queries a x).bind (pbIter queries b) := by
  intro a
  induction a with
  | zero => intro b x; simp [pbIter]
  | succ n ih =>
    intro b x
    have h1 : n + 1 + b = (n + b) + 1 := by omega
    rw [h1]
    show (pb queries x).bind (pbIter queries (n + b))
      = ((pb queries x).bind (pbIter queries n)).bind (pbIter queries b)
    cases pb queries x with
    | none => rfl
    | some y => simpa using ih b y

/-- Reaching extends through one further blocker step. -/
theorem pbReaches_step (queries : List RunningQuerySnapshot) (x c d : Nat)
    (h : pbReaches queries x c) (hc : pb queries c = some d) :
    pbReaches queries x d := by
  obtain ⟨k, hk⟩ := h
  exact ⟨k + 1, by rw [pbIter_succ_right, hk]; simpa using hc⟩

/-- Along a good path the iterated blocker lookup of the head enumerates
the path. -/
theorem goodPath_pbIter (queries : List RunningQuerySnapshot) :
    ∀ (l : List Nat) (h : GoodPath queries l) (m : Nat),
      pbIter queries m (l.head h.1) = l[m]? := by
  intro l
  induction l with
  | nil => intro h; exact absurd rfl h.1
  | cons a rest ih =>
    intro h m
    cases rest with
    | nil =>
      cases m with
      | zero => rfl
      | succ m' =>
        have hlast : pb queries a = none := by
          have := h.2.2.2 h.1
          simpa using this
        show (pb queries a).bind (pbIter queries m') = [a][m' + 1]?
        rw [hlast]
        simp
    | cons b rest2 =>
      cases m with
      | zero => rfl
      | succ m' =>
        have hab : pb queries a = some b := (List.chain'_cons.mp h.2.2.1).1
        have htail : GoodPath queries (b :: rest2) := by
          refine ⟨by simp, h.2.1.of_cons, (List.chain'_cons.mp h.2.2.1).2, ?_⟩
          intro h'
          have := h.2.2.2 h.1
          rwa [List.getLast_cons h'] at this
        show (pb queries a).bind (pbIter queries m') = (a :: b :: rest2)[m' + 1]?
        rw [hab]
        simpa using ih htail m'

/-- The head of a good path is never revisited by iterating the blocker
lookup: paths are acyclic. -/
theorem goodPath_no_cycle (queries : List RunningQuerySnapshot)
    (l : List Nat) (h : GoodPath queries l) (m : Nat) (hm : 1 ≤ m) :
    pbIter queries m (l.head h.1) ≠ some (l.head h.1) := by
  intro hc
  rw [goodPath_pbIter queries l h m] at hc
  have h0 : l[0]? = some (l.head h.1) := by
    cases l with
    | nil => exact absurd rfl h.1
    | cons a rest => simp
  have hmlt : m < l.length := by
    by_contra hge
    rw [List.getElem?_eq_none (by omega)] at hc
    cases hc
  have := List.getElem?_inj hmlt h.2.1 (hc.trans h0.symm)
  omega

/-- An element of a nonempty list is the last element or has a successor. -/
theorem mem_decomp_last {α : Type} (l : List α) (hne : l ≠ []) (c : α)
    (hc : c ∈ l) :
    c = l.getLast hne ∨ ∃ l₁ y l₂, l = l₁ ++ c :: y :: l₂ := by
  induction l with
  | nil => cases hc
  | cons a rest ih =>
    cases rest with
    | nil =>
      left
      simpa using (List.mem_singleton.mp hc)
    | cons b rest2 =>
      rcases List.mem_cons.mp hc with h | h
      · right; exact ⟨[], b, rest2, by rw [h]; simp⟩
      · rcases ih (by simp) h with h1 | ⟨l₁, y, l₂, heq⟩
        · left; rw [List.getLast_cons (by simp)]; exact h1
        · right; exact ⟨a :: l₁, y, l₂, by rw [heq]; simp⟩

/-- A session whose blocker is the head of a good path is not on the
path: the path cannot be re-entered from below. -/
theorem step_not_mem (queries : List RunningQuerySnapshot) (l : List Nat)
    (h : GoodPath queries l) (c : Nat)
    (hc : pb queries c = some (l.head h.1)) : c ∉ l := by
  intro hmem
  rcases mem_decomp_last l h.1 c hmem with heq | ⟨l₁, y, l₂, heq⟩
  · rw [heq, h.2.2.2 h.1] at hc
    cases hc
  · have hinf : List.IsInfix [c, y] l := ⟨l₁, l₂, by rw [heq]; simp⟩
    have hch2 := List.Chain'.infix h.2.2.1 hinf
    have hR : pb queries c = some y := (List.chain'_cons.mp hch2).1
    rw [hc] at hR
    have hy : l.head h.1 = y := by injection hR
    cases l with
    | nil => exact absurd rfl h.1
    | cons a rest =>
      have hhead : a = y := hy
      have hnd := List.nodup_cons.mp h.2.1
      apply hnd.1
      cases l₁ with
      | nil =>
        have : a :: rest = c :: y :: l₂ := heq
        have h1 : a = c := by injection this
        have h2 : rest = y :: l₂ := by injection this
        rw [h2, hhead]
        simp
      | cons a' l₁' =>
        have : a :: rest = a' :: (l₁' ++ c :: y :: l₂) := by
          rw [heq]; rfl
        have h2 : rest = l₁' ++ c :: y :: l₂ := by injection this
        rw [h2, hhead]
        simp

/-- Two distinct sessions both blocked by the head of a good path have
disjoint reachability: no session reaches both, else the head would lie on
a blocker cycle. -/
theorem no_two_parents (queries : List RunningQuerySnapshot)
    (sid : Nat) (path : List Nat) (hp : GoodPath queries (sid :: path))
    (c₁ c₂ x : Nat) (hne : c₁ ≠ c₂)
    (h1 : pb queries c₁ = some sid) (h2 : pb queries c₂ = some sid)
    (r1 : pbReaches queries x c₁) (r2 : pbReaches queries x c₂) : False := by
  have core : ∀ (cₐ c_b : Nat) (k₁ k₂ : Nat), k₁ < k₂ →
      pbIter queries k₁ x = some cₐ → pbIter queries k₂ x = some c_b →
      pb queries cₐ = some sid → pb queries c_b = some sid → False := by
    intro cₐ c_b k₁ k₂ hlt hk₁ hk₂ ha hb
    have hsplit : k₁ + (k₂ - k₁) = k₂ := by omega
    rw [← hsplit, pbIter_add, hk₁] at hk₂
    have hd : pbIter queries (k₂ - k₁) cₐ = some c_b := by simpa using hk₂
    obtain ⟨d, hdd⟩ : ∃ d, k₂ - k₁ = d + 1 := ⟨k₂ - k₁ - 1, by omega⟩
    rw [hdd] at hd
    have hd2 : pbIter queries d sid = some c_b := by
      have : (pb queries cₐ).bind (pbIter queries d) = some c_b := hd
      rw [ha] at this
      simpa using this
    have hcyc : pbIter queries (d + 1) sid = some sid := by
      rw [pbIter_succ_right, hd2]
      simpa using hb
    exact goodPath_no_cycle queries (sid :: path) hp (d + 1) (by omega)
      (by simpa using hcyc)
  obtain ⟨k₁, hk₁⟩ := r1
  obtain ⟨k₂, hk₂⟩ := r2
  rcases lt_trichotomy k₁ k₂ with h | h | h
  · exact core c₁ c₂ k₁ k₂ h hk₁ hk₂ h1 h2
  · subst h
    rw [hk₁] at hk₂
    exact hne (by injection hk₂)
  · exact core c₂ c₁ k₂ k₁ h hk₂ hk₁ h2 h1

/-- The head of a good path is not reachable from below through a session
it blocks. -/
theorem head_not_reached (queries : List RunningQuerySnapshot)
    (sid : Nat) (path : List Nat) (hp : GoodPath queries (sid :: path))
    (c : Nat) (hc : pb queries c = some sid)
    (hr : pbReaches queries sid c) : False := by
  obtain ⟨k, hk⟩ := hr
  have : pbIter queries (k + 1) sid = some sid := by
    rw [pbIter_succ_right, hk]
    simpa using hc
  exact goodPath_no_cycle queries (sid :: path) hp (k + 1) (by omega)
    (by simpa using this)

/-- Membership in the collected session ids of a children list. -/
theorem sidsInList_mem_iff :
    ∀ (l : List (Option ChainNode)) (x : Nat),
      x ∈ sidsInList l ↔ ∃ o ∈ l, ∃ c, o = some c ∧ x ∈ c.sidsIn := by
  intro l
  induction l with
  | nil => intro x; simp [sidsInList]
  | cons o rest ih =>
    intro x
    cases o with
    | none =>
      rw [show sidsInList (none :: rest) = sidsInList rest from rfl, ih]
      constructor
      · rintro ⟨o, ho, c, hc, hx⟩
        exact ⟨o, List.mem_cons_of_mem _ ho, c, hc, hx⟩
      · rintro ⟨o, ho, c, hc, hx⟩
        rcases List.mem_cons.mp ho with h | h
        · rw [h] at hc; cases hc
        · exact ⟨o, h, c, hc, hx⟩
    | some c0 =>
      rw [show sidsInList (some c0 :: rest) = c0.sidsIn ++ sidsInList rest from rfl,
        List.mem_append, ih]
      constructor
      · rintro (hx | ⟨o, ho, c, hc, hx⟩)
        · exact ⟨some c0, by simp, c0, rfl, hx⟩
        · exact ⟨o, List.mem_cons_of_mem _ ho, c, hc, hx⟩
      · rintro ⟨o, ho, c, hc, hx⟩
        rcases List.mem_cons.mp ho with h | h
        · left
          rw [h] at hc
          injection hc with hc'
          exact hc' ▸ hx
        · right; exact ⟨o, h, c, hc, hx⟩

/-- A children list of intact subtrees is `none`-free. -/
theorem noneFreeList_of_forall (l : List (Option ChainNode))
    (h : ∀ o ∈ l, ∃ c, o = some c ∧ c.noneFree = true) :
    noneFreeList l = true := by
  induction l with
  | nil => rfl
  | cons o rest ih =>
    cases o with
    | none => obtain ⟨c, hc, _⟩ := h none (by simp); cases hc
    | some c0 =>
      obtain ⟨c, hc, hcf⟩ := h (some c0) (by simp)
      injection hc with hc'
      subst hc'
      show (c0.noneFree && noneFreeList rest) = true
      rw [hcf, ih (fun o ho => h o (List.mem_cons_of_mem _ ho))]
      rfl

/-- The count of a children list of subtrees each counting its non-root
nodes: children slots plus subtree counts equal the non-root node total. -/
theorem countBlockedList_of_forall (l : List (Option ChainNode))
    (h : ∀ o ∈ l, ∃ c, o = some c ∧ count_blocked c + 1 = c.sidsIn.length) :
    countBlockedList l + l.length = (sidsInList l).length := by
  induction l with
  | nil => rfl
  | cons o rest ih =>
    cases o with
    | none => obtain ⟨c, hc, _⟩ := h none (by simp); cases hc
    | some c0 =>
      obtain ⟨c, hc, hcl⟩ := h (some c0) (by simp)
      injection hc with hc'
      subst hc'
      have ihr := ih (fun o ho => h o (List.mem_cons_of_mem _ ho))
      show count_blocked c0 + countBlockedList rest + (rest.length + 1)
        = (c0.sidsIn ++ sidsInList rest).length
      rw [List.length_append]
      omega

/-- The spec-side blocked-session set of a children list is the collected
session ids, when each subtree satisfies this. -/
theorem specBlockedSessionsList_of_forall (l : List (Option ChainNode))
    (h : ∀ o ∈ l, ∃ c, o = some c ∧
      insert c.sid (specBlockedSessions c) = c.sidsIn.toFinset) :
    specBlockedSessionsList l = (sidsInList l).toFinset := by
  induction l with
  | nil => rfl
  | cons o rest ih =>
    cases o with
    | none => obtain ⟨c, hc, _⟩ := h none (by simp); cases hc
    | some c0 =>
      obtain ⟨c, hc, hcs⟩ := h (some c0) (by simp)
      injection hc with hc'
      subst hc'
      have ihr := ih (fun o ho => h o (List.mem_cons_of_mem _ ho))
      show insert c0.sid (specBlockedSessions c0) ∪ specBlockedSessionsList rest
        = (c0.sidsIn ++ sidsInList rest).toFinset
      rw [List.toFinset_append, hcs, ihr]

/-- Collected session ids of a children list are distinct when each subtree
has distinct ids and the subtrees, pairwise, share no session. -/
theorem sidsInList_nodup_of_forall (l : List (Option ChainNode))
    (hall : ∀ o ∈ l, ∃ c, o = some c ∧ c.sidsIn.Nodup)
    (hdisj : l.Pairwise (fun o₁ o₂ => ∀ x c₁ c₂, o₁ = some c₁ → o₂ = some c₂ →
      x ∈ c₁.sidsIn → x ∈ c₂.sidsIn → False)) :
    (sidsInList l).Nodup := by
  induction l with
  | nil => simp [sidsInList]
  | cons o rest ih =>
    have hdp := List.pairwise_cons.mp hdisj
    cases o with
    | none =>
      show (sidsInList rest).Nodup
      exact ih (fun o ho => hall o (List.mem_cons_of_mem _ ho)) hdp.2
    | some c0 =>
      obtain ⟨c, hc, hnd0⟩ := hall (some c0) (by simp)
      injection hc with hc'
      subst hc'
      show (c0.sidsIn ++ sidsInList rest).Nodup
      rw [List.nodup_append]
      refine ⟨hnd0, ih (fun o ho => hall o (List.mem_cons_of_mem _ ho)) hdp.2, ?_⟩
      intro x hx1 hx2
      obtain ⟨o, ho, c, hcEq, hxc⟩ := (sidsInList_mem_iff rest x).mp hx2
      exact hdp.1 o ho x c0 c rfl hcEq hx1 hxc

/-- Main induction for distinct session ids: called on the head of a good
DFS path with enough fuel, `build_tree` returns an intact (`none`-free)
tree rooted at `sid` whose collected session ids are distinct, all reaching
`sid` along blocker chains, and whose `_count_blocked` value and spec-side
blocked-session set both match the collected non-root ids. -/
theorem build_tree_distinct (queries : List RunningQuerySnapshot)
    (hnd : (queries.map RunningQuerySnapshot.session_id).Nodup) :
    ∀ (fuel : Nat) (sid : Nat) (visited : Finset Nat) (path : List Nat),
      visited = path.toFinset →
      GoodPath queries (sid :: path) →
      (∃ q ∈ queries, q.session_id = sid) →
      ((queries.map RunningQuerySnapshot.session_id).toFinset \ visited).card < fuel →
      ∃ cs, build_tree queries fuel sid visited = some (.mk sid cs) ∧
        noneFreeList cs = true ∧
        (sid :: sidsInList cs).Nodup ∧
        (∀ x ∈ sid :: sidsInList cs, pbReaches queries x sid) ∧
        countBlockedList cs + cs.length = (sidsInList cs).length ∧
        specBlockedSessionsList cs = (sidsInList cs).toFinset := by
  intro fuel
  induction fuel with
  | zero => intro sid visited path h1 h2 h3 h4; exact absurd h4 (Nat.not_lt_zero _)
  | succ f ih =>
    intro sid visited path hvis hpath hrow hfuel
    obtain ⟨q, hq, hqs⟩ := hrow
    have hsidpath : sid ∉ path := (List.nodup_cons.mp hpath.2.1).1
    have hsidnot : sid ∉ visited := by
      rw [hvis]
      intro hmem
      exact hsidpath (List.mem_toFinset.mp hmem)
    have hlook : bySessionGet queries sid = some q := by
      rw [← hqs]; exact bySessionGet_self queries hnd q hq
    have hsidmem : sid ∈ (queries.map RunningQuerySnapshot.session_id).toFinset := by
      rw [List.mem_toFinset, ← hqs]
      exact List.mem_map_of_mem _ hq
    have hchild : ∀ b ∈ queries.filter (fun r => r.blocking_session_id == some sid),
        ∃ cs_b, build_tree queries f b.session_id (insert sid visited)
            = some (.mk b.session_id cs_b) ∧
          noneFreeList cs_b = true ∧
          (b.session_id :: sidsInList cs_b).Nodup ∧
          (∀ x ∈ b.session_id :: sidsInList cs_b, pbReaches queries x b.session_id) ∧
          countBlockedList cs_b + cs_b.length = (sidsInList cs_b).length ∧
          specBlockedSessionsList cs_b = (sidsInList cs_b).toFinset ∧
          pb queries b.session_id = some sid := by
      intro b hb
      have hbq : b ∈ queries := (List.mem_filter.mp hb).1
      have hbb : b.blocking_session_id = some sid := by
        have := (List.mem_filter.mp hb).2
        simpa using this
      have hpb : pb queries b.session_id = some sid := by
        rw [pb_eq_blocking queries hnd b hbq]; exact hbb
      have hnotmem : b.session_id ∉ sid :: path :=
        step_not_mem queries (sid :: path) hpath b.session_id (by simpa using hpb)
      have hgood : GoodPath queries (b.session_id :: sid :: path) := by
        refine ⟨by simp, List.nodup_cons.mpr ⟨hnotmem, hpath.2.1⟩, ?_, ?_⟩
        · exact List.chain'_cons.mpr ⟨by simpa using hpb, hpath.2.2.1⟩
        · intro h'
          rw [List.getLast_cons (by simp : (sid :: path) ≠ [])]
          exact hpath.2.2.2 (by simp)
      have hfuel' : ((queries.map RunningQuerySnapshot.session_id).toFinset \
          insert sid visited).card < f := by
        rw [Finset.sdiff_insert]
        have hmem2 : sid ∈ (queries.map RunningQuerySnapshot.session_id).toFinset \
            visited := Finset.mem_sdiff.mpr ⟨hsidmem, hsidnot⟩
        rw [Finset.card_erase_of_mem hmem2]
        have hpos : 0 < ((queries.map RunningQuerySnapshot.session_id).toFinset \
            visited).card := Finset.card_pos.mpr ⟨sid, hmem2⟩
        omega
      obtain ⟨cs_b, h1, h2, h3, h4, h5, h6⟩ := ih b.session_id (insert sid visited)
        (sid :: path) (by rw [hvis, List.toFinset_cons]) hgood ⟨b, hbq, rfl⟩ hfuel'
      exact ⟨cs_b, h1, h2, h3, h4, h5, h6, hpb⟩
    have hofact : ∀ o ∈ (queries.filter
          (fun r => r.blocking_session_id == some sid)).map
          (fun b => build_tree queries f b.session_id (insert sid visited)),
        ∃ c : ChainNode, o = some c ∧ c.noneFree = true ∧ c.sidsIn.Nodup ∧
          (∀ x ∈ c.sidsIn, pbReaches queries x c.sid) ∧
          count_blocked c + 1 = c.sidsIn.length ∧
          insert c.sid (specBlockedSessions c) = c.sidsIn.toFinset ∧
          pb queries c.sid = some sid := by
      intro o ho
      obtain ⟨b, hb, hbo⟩ := List.mem_map.mp ho
      obtain ⟨cs_b, hbuild, hnf, hnd2, hreach, hcount, hspec, hpb⟩ := hchild b hb
      refine ⟨.mk b.session_id cs_b, by rw [← hbo, hbuild], hnf, hnd2, hreach, ?_, ?_, hpb⟩
      · show count_blocked (.mk b.session_id cs_b) + 1
          = (ChainNode.mk b.session_id cs_b).sidsIn.length
        simp only [count_blocked, ChainNode.sidsIn, List.length_cons]
        omega
      · show insert (ChainNode.mk b.session_id cs_b).sid
            (specBlockedSessions (.mk b.session_id cs_b))
          = (ChainNode.mk b.session_id cs_b).sidsIn.toFinset
        simp only [ChainNode.sid, specBlockedSessions, ChainNode.sidsIn,
          List.toFinset_cons]
        rw [hspec]
    refine ⟨(queries.filter (fun r => r.blocking_session_id == some sid)).map
      (fun b => build_tree queries f b.session_id (insert sid visited)),
      ?_, ?_, ?_, ?_, ?_, ?_⟩
    · show build_tree queries (f + 1) sid visited = _
      simp only [build_tree, if_neg hsidnot, hlook]
      rw [hqs]
    · exact noneFreeList_of_forall _ (fun o ho =>
        (hofact o ho).elim (fun c hc => ⟨c, hc.1, hc.2.1⟩))
    · rw [List.nodup_cons]
      constructor
      · intro hx
        obtain ⟨o, ho, c, hoc, hxc⟩ := (sidsInList_mem_iff _ sid).mp hx
        obtain ⟨c', hoc', _, _, hreach', _, _, hpb'⟩ := hofact o ho
        rw [hoc] at hoc'
        have hcc : c = c' := by injection hoc'
        subst hcc
        exact absurd (hreach' sid hxc)
          (fun hr => head_not_reached queries sid path hpath c.sid hpb' hr)
      · apply sidsInList_nodup_of_forall
        · exact fun o ho => (hofact o ho).elim (fun c hc => ⟨c, hc.1, hc.2.2.1⟩)
        · have hbnd : ((queries.filter
              (fun r => r.blocking_session_id == some sid)).map
              RunningQuerySnapshot.session_id).Nodup :=
            List.Nodup.sublist
              (List.Sublist.map _ (List.filter_sublist queries)) hnd
          have hpw : (queries.filter
              (fun r => r.blocking_session_id == some sid)).Pairwise
              (fun b₁ b₂ => b₁.session_id ≠ b₂.session_id) :=
            List.pairwise_map.mp hbnd
          refine List.pairwise_map.mpr (List.Pairwise.imp_of_mem ?_ hpw)
          intro b₁ b₂ hb₁ hb₂ hne
          intro x c₁ c₂ hEq1 hEq2 hx1 hx2
          obtain ⟨cs₁, hbuild₁, _, _, hreach₁, _, _, hpb₁⟩ := hchild b₁ hb₁
          obtain ⟨cs₂, hbuild₂, _, _, hreach₂, _, _, hpb₂⟩ := hchild b₂ hb₂
          rw [hbuild₁] at hEq1
          rw [hbuild₂] at hEq2
          have hc₁ : c₁ = ChainNode.mk b₁.session_id cs₁ := by
            injection hEq1 with h
            exact h.symm
          have hc₂ : c₂ = ChainNode.mk b₂.session_id cs₂ := by
            injection hEq2 with h
            exact h.symm
          subst hc₁
          subst hc₂
          have r1 : pbReaches queries x b₁.session_id := hreach₁ x hx1
          have r2 : pbReaches queries x b₂.session_id := hreach₂ x hx2
          exact no_two_parents queries sid path hpath b₁.session_id b₂.session_id x
            hne hpb₁ hpb₂ r1 r2
    · intro x hx
      rcases List.mem_cons.mp hx with h | h
      · exact ⟨0, by rw [h]; rfl⟩
      · obtain ⟨o, ho, c, hoc, hxc⟩ := (sidsInList_mem_iff _ x).mp h
        obtain ⟨c', hoc', _, _, hreach', _, _, hpb'⟩ := hofact o ho
        rw [hoc] at hoc'
        have hcc : c = c' := by injection hoc'
        subst hcc
        exact pbReaches_step queries x c.sid sid (hreach' x hxc) hpb'
    · exact countBlockedList_of_forall _ (fun o ho =>
        (hofact o ho).elim (fun c hc => ⟨c, hc.1, hc.2.2.2.2.1⟩))
    · exact specBlockedSessionsList_of_forall _ (fun o ho =>
        (hofact o ho).elim (fun c hc => ⟨c, hc.1, hc.2.2.2.2.2.1⟩))

/-- Counterexample to claim C5 as stated: in the generation with rows
(1, none), (2, blocked by 1), (3, blocked by 2), (2, blocked by 3) — session
2 appearing twice — the DFS from root 1 reaches 2, then 3, then revisits 2
and truncates; the truncated revisit still contributes one through
`len(blocked)`, so the code returns `total_blocked_sessions = 3` while the
per-tree distinct blocked descendant sessions summed across trees (the
quantity the claim asserts, a truncated revisit contributing nothing)
equal 2. -/
theorem blocking_count_counterexample :
    total_blocked_sessions [⟨1, none⟩, ⟨2, some 1⟩, ⟨3, some 2⟩, ⟨2, some 3⟩] = 3 ∧
    specTotalBlockedSessions [⟨1, none⟩, ⟨2, some 1⟩, ⟨3, some 2⟩, ⟨2, some 3⟩] = 2 ∧
    ¬ total_blocked_sessions [⟨1, none⟩, ⟨2, some 1⟩, ⟨3, some 2⟩, ⟨2, some 3⟩]
        = specTotalBlockedSessions [⟨1, none⟩, ⟨2, some 1⟩, ⟨3, some 2⟩, ⟨2, some 3⟩] := by
  decide

/-- Claim C5 as amended: for every snapshot generation whose session ids
are pairwise distinct, `total_blocked_sessions` equals the number of
distinct blocked descendant sessions summed across all returned trees, and
no branch is truncated (every tree is intact, so a truncated revisit never
arises and no session is double-counted). -/
theorem blocking_chains_distinct_sids (queries : List RunningQuerySnapshot)
    (hnd : (queries.map RunningQuerySnapshot.session_id).Nodup) :
    total_blocked_sessions queries = specTotalBlockedSessions queries ∧
    ∀ o ∈ build_blocking_chains queries, ∃ t, o = some t ∧ t.noneFree = true := by
  have hchains : ∀ o ∈ build_blocking_chains queries,
      ∃ t, o = some t ∧ t.noneFree = true ∧
        count_blocked t = (specBlockedSessions t).card := by
    intro o ho
    simp only [build_blocking_chains] at ho
    obtain ⟨r, hr, hro⟩ := List.mem_map.mp ho
    have hrq : r ∈ queries := (List.mem_filter.mp hr).1
    have hrnone : r.blocking_session_id = none := by
      have h2 := (List.mem_filter.mp hr).2
      simp only [Bool.and_eq_true] at h2
      exact Option.isNone_iff_eq_none.mp h2.2
    have hgood : GoodPath queries [r.session_id] := by
      refine ⟨by simp, by simp, by simp, ?_⟩
      intro h'
      show pb queries ([r.session_id].getLast h') = none
      simp only [List.getLast_singleton]
      rw [pb_eq_blocking queries hnd r hrq]
      exact hrnone
    have hfuel : ((queries.map RunningQuerySnapshot.session_id).toFinset \ ∅).card
        < queries.length + 1 := by
      rw [Finset.sdiff_empty]
      have h1 := List.toFinset_card_le (queries.map RunningQuerySnapshot.session_id)
      rw [List.length_map] at h1
      omega
    obtain ⟨cs, hbuild, hnf, hndp, hreach, hcount, hspec⟩ :=
      build_tree_distinct queries hnd (queries.length + 1) r.session_id ∅ []
        (by simp) hgood ⟨r, hrq, rfl⟩ hfuel
    refine ⟨.mk r.session_id cs, by rw [← hro, hbuild], hnf, ?_⟩
    have hndtail : (sidsInList cs).Nodup := (List.nodup_cons.mp hndp).2
    show count_blocked (.mk r.session_id cs)
      = (specBlockedSessions (.mk r.session_id cs)).card
    simp only [count_blocked, specBlockedSessions]
    rw [hspec, List.toFinset_card_of_nodup hndtail]
    omega
  constructor
  · unfold total_blocked_sessions specTotalBlockedSessions
    congr 1
    apply List.map_congr_left
    intro o ho
    obtain ⟨t, hot, _, hct⟩ := hchains o ho
    rw [hot]
    simpa [countBlockedOpt] using hct
  · intro o ho
    obtain ⟨t, hot, hnf, _⟩ := hchains o ho
    exact ⟨t, hot, hnf⟩

/-- Witness for amended C5 at a concrete two-row generation with distinct
session ids: totals agree. -/
theorem blocking_chains_distinct_sids_witness :
    (([⟨1, none⟩, ⟨2, some 1⟩] : List RunningQuerySnapshot).map
      RunningQuerySnapshot.session_id).Nodup ∧
    total_blocked_sessions [⟨1, none⟩, ⟨2, some 1⟩]
      = specTotalBlockedSessions [⟨1, none⟩, ⟨2, some 1⟩] :=
  ⟨by decide, (blocking_chains_distinct_sids [⟨1, none⟩, ⟨2, some 1⟩] (by decide)).1⟩

end DbTools
